import Mathlib

/-!
Shallow embedding of the go-kita/log logging facade (level.go, std.go,
valuer.go, logger.go) and proofs about its level resolution, value
resolution, field composition and output dispatch paths.

Conventions of the embedding:
* Go `Level` (an int8 compared numerically) is embedded as `Int`; no
  arithmetic is performed on levels, only comparisons, so no overflow
  modelling is needed.
* Go maps (`map[string]Level`, `map[Level]string`) are embedded as
  association lists; `Set`/`UnSet`/`RegisterLevelName` perform a
  copy-on-write update in Go, which functionally is replace-or-append /
  filter-out on the association list, and lookup returns the first match.
* Go strings used as hierarchical logger names are embedded as `List Char`
  so that the suffix-stripping loop of `stdLevelStore.Get` recurses on the
  character list.
* `context.Context` values are embedded as `GoContext`; a possibly-nil
  context is `Option GoContext`.
* `interface{}` values attached to fields are embedded as `GoValue`: either
  a plain value carrying its `%v` rendering, a `Level` (whose `%v`
  rendering goes through `Level.String`), or a `Valuer` callback.
-/

/-- Level is a logging priority, a small signed integer (Go int8). -/
abbrev Level := Int

/-- DebugLevel logs are typically voluminous. -/
def DebugLevel : Level := -1

/-- InfoLevel is the default logging priority. -/
def InfoLevel : Level := 0

/-- WarnLevel logs are more important than Info. -/
def WarnLevel : Level := 1

/-- ErrorLevel logs are high-priority. -/
def ErrorLevel : Level := 2

/-- ClosedLevel logs output nothing (Go math.MaxInt8). -/
def ClosedLevel : Level := 127

/-- allLevel logs output anything (Go math.MinInt8). -/
def allLevel : Level := -128

/-- LevelTable embeds the Go `map[Level]string` level-name table as an
association list. -/
abbrev LevelTable := List (Level × String)

/-- lookupTable is Go map lookup on the embedded level-name table: the value
of the first entry with the given key, if any. -/
def lookupTable : LevelTable → Level → Option String
  | [], _ => none
  | (l', n') :: rest, l => if l' = l then some n' else lookupTable rest l

/-- defaultLevelNames is the initial value of the Go global `levelNames`
table. -/
def defaultLevelNames : LevelTable :=
  [(DebugLevel, "DEBUG"), (InfoLevel, "INFO"), (WarnLevel, "WARN"), (ErrorLevel, "ERROR")]

/-- RegisterLevelName embeds Go `RegisterLevelName`: the copy-on-write loop
copies every entry of the table and then executes `mp[level] = name`, i.e.
it replaces the entry for `level` when present and inserts it otherwise.
Note that an empty `name` is stored like any other value. -/
def RegisterLevelName : LevelTable → Level → String → LevelTable
  | [], level, name => [(level, name)]
  | (l', n') :: rest, level, name =>
    if l' = level then (level, name) :: rest
    else (l', n') :: RegisterLevelName rest level name

/-- levelString embeds Go `Level.String`: `name := (*levelNames)[l]` (the Go
map read yields the zero value `""` when the key is absent); if the name is
empty, fall back to `Level(<numeric value>)`. -/
def levelString (t : LevelTable) (l : Level) : String :=
  let name := (lookupTable t l).getD ""
  if name.length = 0 then "Level(" ++ toString l ++ ")" else name

/-- GoContext embeds non-nil `context.Context` values: the background
context or some other opaque context identified by a tag. -/
inductive GoContext where
  | background : GoContext
  | tagged : Nat → GoContext

/-- GoValue embeds the `interface{}` values attached to logging fields:
`str s` is a plain value whose `fmt` `%v` rendering is `s`; `lvl l` is a
`Level` value (rendered through `Level.String`); `valuer f` is a `Valuer`
callback `func(ctx context.Context) interface{}` (the context argument may
be nil, hence `Option GoContext`). Values are finite trees, matching every
Go valuer chain on which the resolution loop terminates. -/
inductive GoValue where
  | str : String → GoValue
  | lvl : Level → GoValue
  | valuer : (Option GoContext → GoValue) → GoValue

/-- isValuer tests whether a value is a `Valuer` callback (the Go type
assertion `v.(Valuer)`). -/
def GoValue.isValuer : GoValue → Bool
  | .valuer _ => true
  | _ => false

/-- Value embeds Go `Value` from valuer.go: while the value is a `Valuer`,
invoke it with the (possibly nil) context and continue with the result;
return the first non-`Valuer` value reached. -/
def Value (ctx : Option GoContext) : GoValue → GoValue
  | .str s => .str s
  | .lvl l => .lvl l
  | .valuer f => Value ctx (f ctx)

/-- renderValue is the `%v` rendering of a resolved (non-`Valuer`) value,
as used by `stdOutPutter.OutPut` after calling `Value`. The `valuer` branch
is unreachable because `Value` never returns a `Valuer`. -/
def renderValue (t : LevelTable) : GoValue → String
  | .str s => s
  | .lvl l => levelString t l
  | .valuer _ => ""

/-- LoggerName is a hierarchical logger name, embedded as the character
list of the Go string. -/
abbrev LoggerName := List Char

/-- isSep tests the separator runes of the hierarchy: `'.'` and `'/'`
(the predicate passed to `strings.LastIndexFunc` in `stdLevelStore.Get`). -/
def isSep (c : Char) : Bool := c == '.' || c == '/'

/-- lastSepIdx embeds `strings.LastIndexFunc(name, isSep)`: the index of
the last separator character in the name, or `none` when there is none (Go
returns -1). The index is returned as a `Fin` so that the stripping loop
can justify its termination. -/
def lastSepIdx : (s : LoggerName) → Option (Fin s.length)
  | [] => none
  | c :: rest =>
    match lastSepIdx rest with
    | some i => some ⟨i.val + 1, Nat.succ_lt_succ i.isLt⟩
    | none => if isSep c then some ⟨0, Nat.succ_pos rest.length⟩ else none

/-- StoreMap embeds the Go `map[string]Level` inside `stdLevelStore` as an
association list from logger names to levels. -/
abbrev StoreMap := List (LoggerName × Level)

/-- lookupStore is Go map lookup on the embedded store: the value of the
first entry with the given key, if any (`lvl, ok := store[name]`). -/
def lookupStore : StoreMap → LoggerName → Option Level
  | [], _ => none
  | (k', v') :: rest, k => if k' = k then some v' else lookupStore rest k

/-- storeGetLoop embeds the body of `stdLevelStore.Get` for a non-nil map:
while the name is non-empty, return the stored level when the name is
present; otherwise strip the name at its last separator and retry, and when
there is no separator fall through to `store[""]`. The final `store[""]`
read is a Go map read, whose zero value is `Level(0)` (numerically
`InfoLevel`) when the root entry is absent. -/
def storeGetLoop (m : StoreMap) (name : LoggerName) : Level :=
  if name = [] then (lookupStore m []).getD 0
  else
    match lookupStore m name with
    | some lvl => lvl
    | none =>
      match lastSepIdx name with
      | none => (lookupStore m []).getD 0
      | some i => storeGetLoop m (name.take i.val)
termination_by name.length
decreasing_by
  have hi := i.isLt
  simp only [List.length_take]
  omega

/-- stdLevelStoreGet embeds `stdLevelStore.Get` in full: a nil inner map
returns `allLevel`, otherwise the suffix-stripping loop runs. -/
def stdLevelStoreGet (store : Option StoreMap) (name : LoggerName) : Level :=
  match store with
  | none => allLevel
  | some m => storeGetLoop m name

/-- storeSet embeds the effect of `stdLevelStore.Set` on the map contents:
the copy-on-write loop copies every entry and then executes
`store[name] = level`, i.e. replace-if-present-else-append. -/
def storeSet : StoreMap → LoggerName → Level → StoreMap
  | [], name, level => [(name, level)]
  | (k', v') :: rest, name, level =>
    if k' = name then (name, level) :: rest
    else (k', v') :: storeSet rest name level

/-- storeUnSet embeds the effect of `stdLevelStore.UnSet` on the map
contents: the copy-on-write loop copies every entry except the one whose
key equals the given name. -/
def storeUnSet : StoreMap → LoggerName → StoreMap
  | [], _ => []
  | (k', v') :: rest, name =>
    if k' = name then storeUnSet rest name
    else (k', v') :: storeUnSet rest name

/-- chainSpec is the candidate-name chain described by the specification:
the full name, then the name repeatedly stripped of its final segment at
the last `'.'` or `'/'`, stopping before the empty name. -/
def chainSpec (name : LoggerName) : List LoggerName :=
  if name = [] then []
  else
    name ::
      match lastSepIdx name with
      | none => []
      | some i => chainSpec (name.take i.val)
termination_by name.length
decreasing_by
  have hi := i.isLt
  simp only [List.length_take]
  omega

/-- firstHit returns the level of the first candidate name present in the
store, if any. -/
def firstHit (m : StoreMap) : List LoggerName → Option Level
  | [] => none
  | n :: rest =>
    match lookupStore m n with
    | some lvl => some lvl
    | none => firstHit m rest

/-- getSpec is the specification's description of `Get`: the level of the
first name of the candidate chain present in the store, falling back to the
root entry under the empty name (whose absence yields the zero value
`Level(0)`, numerically `InfoLevel`). -/
def getSpec (m : StoreMap) (name : LoggerName) : Level :=
  match firstHit m (chainSpec name) with
  | some lvl => lvl
  | none => (lookupStore m []).getD 0

/-- GlobalLevelStore embeds the value of `GetLevelStore()`: either no
LevelStore is registered (Go nil, outer `none`), or a `stdLevelStore` is
registered, whose inner map pointer may in turn be nil (inner `Option`). -/
abbrev GlobalLevelStore := Option (Option StoreMap)

/-- effectiveLevel mirrors the level-resolution steps of
`stdLogger.levelEnabled`:
`ll := InfoLevel; if store != nil { ll = store.Get(name) }`. -/
def effectiveLevel (gs : GlobalLevelStore) (name : LoggerName) : Level :=
  match gs with
  | none => InfoLevel
  | some m => stdLevelStoreGet m name

/-- levelEnabled embeds `stdLogger.levelEnabled`:
`return ll != ClosedLevel && ll <= level` over the effective level. -/
def levelEnabled (gs : GlobalLevelStore) (name : LoggerName) (level : Level) : Bool :=
  let ll := effectiveLevel gs name
  (ll != ClosedLevel) && (ll ≤ level)

/-- LogField embeds the Go `Field` struct of std.go (named `LogField` here
because `Field` is taken by Mathlib): a key/value pair whose value may be a
`Valuer`. -/
structure LogField where
  Key : String
  Value : GoValue

/-- lookupField returns the value of the first field with the given key, if
any; it is the observer used to state what `With` does to a field list. -/
def lookupField : List LogField → String → Option GoValue
  | [], _ => none
  | f :: rest, k => if f.Key = k then some f.Value else lookupField rest k

/-- OutPutter embeds the OutPutter interface values reachable from the
constructors in std.go: `stdOutPutter` (the Go SDK `log.Logger` sink) and
`OutPutFilter` (a possibly-nil underlying OutPutter, a possibly-nil enable
predicate, and a possibly-nil field-modify function). -/
inductive OutPutter where
  | std : OutPutter
  | filter :
      Option OutPutter →
      Option (Option GoContext → LoggerName → Level → Bool) →
      Option (Option GoContext → LogField → LogField) →
      OutPutter

/-- composeLine embeds the buffer composition of `stdOutPutter.OutPut`:
for each field in order, skip it when its key is empty, otherwise append
`key=value ` with the value resolved by `Value` against the context; then
append the message. -/
def composeLine (t : LevelTable) (ctx : Option GoContext) (msg : String)
    (fields : List LogField) : String :=
  (fields.foldl
    (fun buf f =>
      if f.Key.length = 0 then buf
      else buf ++ f.Key ++ "=" ++ renderValue t (Value ctx f.Value) ++ " ")
    "") ++ msg

/-- runOutPut embeds the `OutPut` method of the embedded OutPutters. The
result is the list of lines handed to the underlying `log.Logger` (which
appends a newline to each), or `Except.error ()` when the Go code panics.
`stdOutPutter.OutPut` composes the line and writes it at depth
`callDepth+3`. `OutPutFilter.OutPut` returns when the underlying OutPutter
is nil; returns when the enable predicate is non-nil and rejects; then runs
`o.fieldModifyFunc(ctx, &fields[i])` for every index of the field slice —
a nil-function call (panic) whenever `fieldModifyFunc` is nil and the
field slice is non-empty — and forwards at depth `callDepth+1`. -/
def runOutPut (t : LevelTable) :
    OutPutter → Option GoContext → LoggerName → Level → String → List LogField →
      Nat → Except Unit (List String)
  | .std, ctx, _, _, msg, fields, _ => .ok [composeLine t ctx msg fields ++ "\n"]
  | .filter none _ _, _, _, _, _, _, _ => .ok []
  | .filter (some u) en fm, ctx, name, level, msg, fields, callDepth =>
    if (match en with | some f => !(f ctx name level) | none => false) then .ok []
    else
      match fm with
      | some g => runOutPut t u ctx name level msg (fields.map (g ctx)) (callDepth + 1)
      | none =>
        match fields with
        | [] => runOutPut t u ctx name level msg [] (callDepth + 1)
        | _ :: _ => .error ()

/-- FilterEnable embeds the `FilterEnable` constructor: nil in, nil out;
otherwise an `OutPutFilter` carrying the enable predicate and no
field-modify function. -/
def FilterEnable (o : Option OutPutter)
    (f : Option GoContext → LoggerName → Level → Bool) : Option OutPutter :=
  match o with
  | none => none
  | some u => some (.filter (some u) (some f) none)

/-- StdLogger embeds the `stdLogger` struct: an OutPutter and a name. -/
structure StdLogger where
  output : OutPutter
  name : LoggerName

/-- StdPrinterState embeds the mutable state of a `stdPrinter`: its logger,
level, field list and (non-nil) context. -/
structure StdPrinterState where
  logger : StdLogger
  level : Level
  fields : List LogField
  ctx : Option GoContext

/-- Printer embeds the Printer interface values produced by
`stdLogger.AtLevel`: the no-op `nopPrinter` sentinel or a `stdPrinter`. -/
inductive Printer where
  | nop : Printer
  | std : StdPrinterState → Printer

/-- withField embeds the field-list update of `stdPrinter.With` for a
non-empty key: scan the fields in order, overwrite the value of the first
field whose key matches, and append a new pair when no field matches. -/
def withField : List LogField → String → GoValue → List LogField
  | [], key, value => [⟨key, value⟩]
  | f :: rest, key, value =>
    if f.Key = key then { f with Value := value } :: rest
    else f :: withField rest key value

/-- printerWith embeds `With` on both Printer implementations:
`nopPrinter.With` returns the printer unchanged; `stdPrinter.With` returns
the same printer, unchanged when the key is empty (`len(key) == 0`), and
with the field list updated by `withField` otherwise. -/
def printerWith : Printer → String → GoValue → Printer
  | .nop, _, _ => .nop
  | .std st, key, value =>
    if key.length = 0 then .std st
    else .std { st with fields := withField st.fields key value }

/-- atLevel embeds `stdLogger.AtLevel`: when the level is not enabled,
return `NewNopPrinter()`; otherwise substitute the background context for a
nil one and return a `stdPrinter` seeded with the `level` and `logger`
fields. -/
def atLevel (gs : GlobalLevelStore) (l : StdLogger) (ctx : Option GoContext)
    (level : Level) : Printer :=
  if !levelEnabled gs l.name level then .nop
  else
    .std
      { logger := l
        level := level
        fields := [⟨"level", .lvl level⟩, ⟨"logger", .str (String.mk l.name)⟩]
        ctx := some (ctx.getD .background) }

/-- POp is one call of the print-family interface of a Printer. `print`,
`printf` and `println` carry the message string the Go printer composes
from its variadic arguments (`fmt.Fprint`, `fmt.Fprintf`, and
`fmt.Sprintln` with its trailing newline truncated, respectively) — the
message a `stdPrinter` hands to `OutPut`. `withF` is a `With(key, value)`
call. -/
inductive POp where
  | print : String → POp
  | printf : String → POp
  | println : String → POp
  | withF : String → GoValue → POp

/-- runOp runs one Printer call. Every `nopPrinter` method does nothing and
`With` returns the same printer. Every `stdPrinter` print method hands its
composed message, fields, level, logger name and context to the logger's
OutPutter at call depth 0; `With` updates the printer. -/
def runOp (t : LevelTable) : Printer → POp → Printer × Except Unit (List String)
  | .nop, .withF _ _ => (.nop, .ok [])
  | .nop, _ => (.nop, .ok [])
  | .std st, .print msg =>
    (.std st,
      runOutPut t st.logger.output st.ctx st.logger.name st.level msg st.fields 0)
  | .std st, .printf msg =>
    (.std st,
      runOutPut t st.logger.output st.ctx st.logger.name st.level msg st.fields 0)
  | .std st, .println msg =>
    (.std st,
      runOutPut t st.logger.output st.ctx st.logger.name st.level msg st.fields 0)
  | .std st, .withF key value => (printerWith (.std st) key value, .ok [])

/-- runOps runs a sequence of Printer calls, concatenating the lines each
call hands to the sink, and stopping at the first panic. -/
def runOps (t : LevelTable) : Printer → List POp → Except Unit (List String)
  | _, [] => .ok []
  | p, op :: rest =>
    match runOp t p op with
    | (p', .ok out) =>
      match runOps t p' rest with
      | .ok more => .ok (out ++ more)
      | .error e => .error e
    | (_, .error e) => .error e

theorem value_not_valuer (ctx : Option GoContext) (v : GoValue) :
    (Value ctx v).isValuer = false := by
  induction v with
  | str s => rfl
  | lvl l => rfl
  | valuer f ih => exact ih ctx

/-! Helper lemmas. -/

theorem string_length_zero (s : String) : s.length = 0 ↔ s = "" := by
  cases s with
  | mk data =>
    simp only [String.mk_length, List.length_eq_zero]
    constructor
    · intro h
      subst h
      rfl
    · intro h
      exact congrArg String.data h

theorem storeGet_eq_getSpec (m : StoreMap) (name : LoggerName) :
    storeGetLoop m name = getSpec m name := by
  induction name using storeGetLoop.induct m with
  | case1 => simp [storeGetLoop, getSpec, chainSpec, firstHit]
  | case2 x hx lvl hlook =>
    rw [storeGetLoop, getSpec, chainSpec]
    simp only [if_neg hx, hlook, firstHit]
  | case3 x hx hlook hsep =>
    rw [storeGetLoop, getSpec, chainSpec]
    simp only [if_neg hx, hlook, hsep, firstHit]
  | case4 x hx hlook i hsep ih =>
    rw [storeGetLoop, getSpec, chainSpec]
    simp only [if_neg hx, hlook, hsep, firstHit]
    rw [getSpec] at ih
    exact ih

theorem lookupStore_storeSet_self (m : StoreMap) (k : LoggerName) (v : Level) :
    lookupStore (storeSet m k v) k = some v := by
  induction m with
  | nil => simp [storeSet, lookupStore]
  | cons e rest ih =>
    obtain ⟨k', v'⟩ := e
    by_cases h : k' = k
    · subst h
      simp [storeSet, lookupStore]
    · simp [storeSet, lookupStore, h, ih]

theorem lookupStore_storeSet_other (m : StoreMap) (k k' : LoggerName) (v : Level)
    (h : k' ≠ k) : lookupStore (storeSet m k v) k' = lookupStore m k' := by
  induction m with
  | nil => simp [storeSet, lookupStore, Ne.symm h]
  | cons e rest ih =>
    obtain ⟨k₀, v₀⟩ := e
    by_cases h0 : k₀ = k
    · subst h0
      simp [storeSet, lookupStore, Ne.symm h]
    · simp only [storeSet, if_neg h0, lookupStore]
      by_cases h1 : k₀ = k'
      · simp [h1]
      · simp [h1, ih]

theorem lookupStore_storeUnSet_self (m : StoreMap) (k : LoggerName) :
    lookupStore (storeUnSet m k) k = none := by
  induction m with
  | nil => simp [storeUnSet, lookupStore]
  | cons e rest ih =>
    obtain ⟨k₀, v₀⟩ := e
    by_cases h0 : k₀ = k
    · simp [storeUnSet, h0, ih]
    · simp [storeUnSet, h0, lookupStore, ih]

theorem lookupStore_storeUnSet_other (m : StoreMap) (k k' : LoggerName)
    (h : k' ≠ k) : lookupStore (storeUnSet m k) k' = lookupStore m k' := by
  induction m with
  | nil => simp [storeUnSet]
  | cons e rest ih =>
    obtain ⟨k₀, v₀⟩ := e
    by_cases h0 : k₀ = k
    · subst h0
      simp [storeUnSet, lookupStore, Ne.symm h, ih]
    · simp only [storeUnSet, if_neg h0, lookupStore]
      by_cases h1 : k₀ = k'
      · simp [h1]
      · simp [h1, ih]

theorem lookupTable_register_self (t : LevelTable) (l : Level) (n : String) :
    lookupTable (RegisterLevelName t l n) l = some n := by
  induction t with
  | nil => simp [RegisterLevelName, lookupTable]
  | cons e rest ih =>
    obtain ⟨l₀, n₀⟩ := e
    by_cases h0 : l₀ = l
    · subst h0
      simp [RegisterLevelName, lookupTable]
    · simp [RegisterLevelName, lookupTable, h0, ih]

theorem withField_append (fs : List LogField) (k : String) (v : GoValue)
    (h : k ∉ fs.map LogField.Key) : withField fs k v = fs ++ [⟨k, v⟩] := by
  induction fs with
  | nil => simp [withField]
  | cons f rest ih =>
    simp only [List.map_cons, List.mem_cons] at h
    push_neg at h
    simp [withField, Ne.symm h.1, ih h.2]

theorem withField_keys (fs : List LogField) (k : String) (v : GoValue)
    (h : k ∈ fs.map LogField.Key) :
    (withField fs k v).map LogField.Key = fs.map LogField.Key := by
  induction fs with
  | nil => simp at h
  | cons f rest ih =>
    by_cases h0 : f.Key = k
    · simp [withField, h0]
    · simp only [List.map_cons, List.mem_cons] at h
      rcases h with h | h
    
      · exact absurd h.symm h0
      · simp [withField, h0, ih h]

theorem withField_lookup_self (fs : List LogField) (k : String) (v : GoValue) :
    lookupField (withField fs k v) k = some v := by
  induction fs with
  | nil => simp [withField, lookupField]
  | cons f rest ih =>
    by_cases h0 : f.Key = k
    · simp [withField, h0, lookupField]
    · simp [withField, h0, lookupField, ih]

theorem withField_lookup_other (fs : List LogField) (k k' : String) (v : GoValue)
    (h : k' ≠ k) : lookupField (withField fs k v) k' = lookupField fs k' := by
  induction fs with
  | nil => simp [withField, lookupField, Ne.symm h]
  | cons f rest ih =>
    by_cases h0 : f.Key = k
    · simp [withField, h0, lookupField, Ne.symm h, ih]
    · simp only [withField, if_neg h0, lookupField]
      by_cases h1 : f.Key = k'
      · simp [h1]
      · simp [h1, ih]

theorem composeLine_foldl (t : LevelTable) (ctx : Option GoContext)
    (fields : List LogField) : ∀ acc : String,
    fields.foldl
      (fun buf f =>
        if f.Key.length = 0 then buf
        else buf ++ f.Key ++ "=" ++ renderValue t (Value ctx f.Value) ++ " ")
      acc =
    acc ++
      fields.foldr
        (fun f r =>
          (if f.Key = "" then ""
           else f.Key ++ "=" ++ renderValue t (Value ctx f.Value) ++ " ") ++ r)
        "" := by
  induction fields with
  | nil => intro acc; simp [String.append_empty]
  | cons f rest ih =>
    intro acc
    simp only [List.foldl_cons, List.foldr_cons, ih]
    by_cases h0 : f.Key = ""
    · simp [h0, string_length_zero, String.empty_append]
    · have hl : ¬ f.Key.length = 0 := fun hh => h0 ((string_length_zero f.Key).mp hh)
      simp only [if_neg hl, if_neg h0]
      simp [String.append_assoc]

/-! Claim theorems. -/

/-- C1: for every logger name and every candidate level, with a level store
registered, `stdLogger.levelEnabled` permits output at the candidate level
iff the effective level resolved from the store is not `ClosedLevel` and is
numerically at most the candidate level. -/
theorem claim_level_enabled_iff (m : Option StoreMap) (name : LoggerName)
    (candidate : Level) :
    levelEnabled (some m) name candidate = true ↔
      (stdLevelStoreGet m name ≠ ClosedLevel ∧ stdLevelStoreGet m name ≤ candidate) := by
  simp [levelEnabled, effectiveLevel, Bool.and_eq_true, bne_iff_ne, decide_eq_true_eq]

/-- C2: `stdLevelStore.Get` performs longest-prefix resolution: it returns
the level of the first name present in the store along the chain obtained
by repeatedly stripping the final segment at the last `'.'` or `'/'`,
falling back to the root entry under the empty name; for `a/b/c` the chain
is `a/b/c`, `a/b`, `a`, and with only `a` and the root set, `Get` resolves
to `a`'s level. -/
theorem claim_get_longest_match :
    (∀ (m : StoreMap) (name : LoggerName), storeGetLoop m name = getSpec m name) ∧
    chainSpec ['a', '/', 'b', '/', 'c'] =
      [['a', '/', 'b', '/', 'c'], ['a', '/', 'b'], ['a']] ∧
    storeGetLoop [(['a'], 5), ([], 0)] ['a', '/', 'b', '/', 'c'] = 5 := by
  refine ⟨storeGet_eq_getSpec, ?_, ?_⟩
  · have s1 : chainSpec ['a', '/', 'b', '/', 'c'] =
        ['a', '/', 'b', '/', 'c'] :: chainSpec ['a', '/', 'b'] := by
      rw [chainSpec]
      rfl
    have s2 : chainSpec ['a', '/', 'b'] = ['a', '/', 'b'] :: chainSpec ['a'] := by
      rw [chainSpec]
      rfl
    have s3 : chainSpec ['a'] = [['a']] := by
      rw [chainSpec]
      rfl
    rw [s1, s2, s3]
  · have g1 : storeGetLoop [(['a'], 5), ([], 0)] ['a', '/', 'b', '/', 'c'] =
        storeGetLoop [(['a'], 5), ([], 0)] ['a', '/', 'b'] := by
      rw [storeGetLoop]
      rfl
    have g2 : storeGetLoop [(['a'], 5), ([], 0)] ['a', '/', 'b'] =
        storeGetLoop [(['a'], 5), ([], 0)] ['a'] := by
      rw [storeGetLoop]
      rfl
    have g3 : storeGetLoop [(['a'], 5), ([], 0)] ['a'] = 5 := by
      rw [storeGetLoop]
      rfl
    rw [g1, g2, g3]

/-- C3: when the requested level is not enabled, `stdLogger.AtLevel`
returns the (non-null) no-op Printer, and every sequence of `Print`,
`Printf`, `Println` and `With` calls on the no-op Printer hands zero lines
(zero bytes) to the sink. -/
theorem claim_disabled_at_level_nop (gs : GlobalLevelStore) (l : StdLogger)
    (ctx : Option GoContext) (lvl : Level)
    (h : levelEnabled gs l.name lvl = false) :
    atLevel gs l ctx lvl = Printer.nop ∧
      ∀ (t : LevelTable) (ops : List POp), runOps t Printer.nop ops = .ok [] := by
  constructor
  · simp [atLevel, h]
  · intro t ops
    induction ops with
    | nil => rfl
    | cons op rest ih => cases op <;> simp [runOps, runOp, ih]

/-- Witness for C3 at a store whose root level is `ClosedLevel`. -/
theorem claim_disabled_at_level_nop_witness :
    levelEnabled (some (some [([], ClosedLevel)])) [] ErrorLevel = false ∧
      (atLevel (some (some [([], ClosedLevel)])) ⟨OutPutter.std, []⟩ none ErrorLevel =
          Printer.nop ∧
        ∀ (t : LevelTable) (ops : List POp), runOps t Printer.nop ops = .ok []) := by
  have h : levelEnabled (some (some [([], ClosedLevel)])) [] ErrorLevel = false := by
    simp [levelEnabled, effectiveLevel, stdLevelStoreGet, storeGetLoop, lookupStore,
      ClosedLevel, ErrorLevel]
  exact ⟨h, claim_disabled_at_level_nop _ ⟨OutPutter.std, []⟩ none ErrorLevel h⟩

/-- C4: `stdOutPutter.OutPut` composes, in insertion order, one
`key=value ` segment per field with a non-empty key (fields with empty keys
are skipped, values resolved against the context), followed by the message;
and end-to-end, a root-level-Info logger named `""` given `Print("1","2","3")`
(whose `fmt.Fprint` rendering is `123`) hands exactly
`level=INFO logger= 123` plus a line terminator to the sink. -/
theorem claim_output_composition (t : LevelTable) (ctx : Option GoContext)
    (msg : String) (fields : List LogField) :
    composeLine t ctx msg fields =
      (fields.foldr
        (fun f r =>
          (if f.Key = "" then ""
           else f.Key ++ "=" ++ renderValue t (Value ctx f.Value) ++ " ") ++ r)
        "") ++ msg ∧
    runOps defaultLevelNames
        (atLevel (some (some [([], InfoLevel)])) ⟨OutPutter.std, []⟩ none InfoLevel)
        [POp.print "123"] =
      .ok ["level=INFO logger= 123\n"] := by
  constructor
  · rw [composeLine, composeLine_foldl]
    simp [String.empty_append]
  · simp [runOps, runOp, atLevel, levelEnabled, effectiveLevel, stdLevelStoreGet,
      storeGetLoop, lookupStore, lastSepIdx, isSep, runOutPut, composeLine,
      renderValue, Value, levelString, lookupTable, defaultLevelNames,
      InfoLevel, ClosedLevel, DebugLevel, WarnLevel, ErrorLevel]
    decide

/-- C5: `Value` returns a non-`Valuer` value unchanged; on a `Valuer` it
invokes the callback with the (possibly nil) context and repeats resolution
on the result; and its result is never a `Valuer`. -/
theorem claim_value_resolution (ctx : Option GoContext) (s : String) (l : Level)
    (f : Option GoContext → GoValue) (v : GoValue) :
    Value ctx (GoValue.str s) = GoValue.str s ∧
    Value ctx (GoValue.lvl l) = GoValue.lvl l ∧
    Value ctx (GoValue.valuer f) = Value ctx (f ctx) ∧
    (Value ctx v).isValuer = false :=
  ⟨rfl, rfl, rfl, value_not_valuer ctx v⟩

/-- C6: `With("", v)` leaves the field list unchanged and returns the same
printer (on both the std and nop printers); `With(k, v)` with non-empty `k`
overwrites the value of the first field with key `k` in place when present
(preserving the key sequence, adding no duplicate, leaving other keys'
values unchanged) and otherwise appends `(k, v)` at the end, returning the
same printer. -/
theorem claim_with_overwrite_append (st : StdPrinterState) (v w : GoValue)
    (k : String) (hk : k.length ≠ 0) :
    printerWith (Printer.std st) "" v = Printer.std st ∧
    printerWith Printer.nop "" v = Printer.nop ∧
    printerWith (Printer.std st) k w =
      Printer.std { st with fields := withField st.fields k w } ∧
    (k ∉ st.fields.map LogField.Key →
      withField st.fields k w = st.fields ++ [⟨k, w⟩]) ∧
    (k ∈ st.fields.map LogField.Key →
      (withField st.fields k w).map LogField.Key = st.fields.map LogField.Key) ∧
    lookupField (withField st.fields k w) k = some w ∧
    (∀ k', k' ≠ k →
      lookupField (withField st.fields k w) k' = lookupField st.fields k') := by
  refine ⟨?_, rfl, ?_, fun h => withField_append st.fields k w h,
    fun h => withField_keys st.fields k w h,
    withField_lookup_self st.fields k w,
    fun k' h => withField_lookup_other st.fields k k' w h⟩
  · simp [printerWith]
  · simp [printerWith, hk]

/-- Witness for C6: appending a fresh key and overwriting an existing one
on the seed field list of a printer. -/
theorem claim_with_overwrite_append_witness :
    ("module".length ≠ 0 ∧
      withField [⟨"level", GoValue.lvl 0⟩, ⟨"logger", GoValue.str ""⟩] "module"
          (GoValue.str "test") =
        [⟨"level", GoValue.lvl 0⟩, ⟨"logger", GoValue.str ""⟩, ⟨"module", GoValue.str "test"⟩]) ∧
    ("logger".length ≠ 0 ∧
      (withField [⟨"level", GoValue.lvl 0⟩, ⟨"logger", GoValue.str ""⟩] "logger"
          (GoValue.str "x")).map LogField.Key =
        ["level", "logger"]) := by
  constructor
  · refine ⟨by decide, ?_⟩
    have h := claim_with_overwrite_append
      ⟨⟨OutPutter.std, []⟩, 0, [⟨"level", GoValue.lvl 0⟩, ⟨"logger", GoValue.str ""⟩], none⟩
      (GoValue.str "v") (GoValue.str "test") "module" (by decide)
    exact h.2.2.2.1 (by decide)
  · refine ⟨by decide, ?_⟩
    have h := claim_with_overwrite_append
      ⟨⟨OutPutter.std, []⟩, 0, [⟨"level", GoValue.lvl 0⟩, ⟨"logger", GoValue.str ""⟩], none⟩
      (GoValue.str "v") (GoValue.str "x") "logger" (by decide)
    exact h.2.2.2.2.1 (by decide)

/-- C7: after `RegisterLevelName(l, n)` with non-empty `n`, `l.String()`
returns `n`; and after `RegisterLevelName(l, "")` on a level that had a
name, `l.String()` returns the generic `Level(<numeric value>)` form. -/
theorem claim_register_then_string (t : LevelTable) (l : Level) (n : String)
    (hn : n ≠ "") (hhad : (lookupTable t l).getD "" ≠ "") :
    levelString (RegisterLevelName t l n) l = n ∧
    levelString (RegisterLevelName t l "") l = "Level(" ++ toString l ++ ")" := by
  constructor
  · simp [levelString, lookupTable_register_self, string_length_zero, hn]
  · simp [levelString, lookupTable_register_self]

/-- Witness for C7 on the default name table at `InfoLevel`. -/
theorem claim_register_then_string_witness :
    (("NOTICE" : String) ≠ "" ∧
      (lookupTable defaultLevelNames InfoLevel).getD "" ≠ "") ∧
    levelString (RegisterLevelName defaultLevelNames InfoLevel "NOTICE") InfoLevel =
        "NOTICE" ∧
    levelString (RegisterLevelName defaultLevelNames InfoLevel "") InfoLevel =
        "Level(" ++ toString InfoLevel ++ ")" := by
  refine ⟨⟨by decide, by decide⟩, ?_⟩
  exact claim_register_then_string defaultLevelNames InfoLevel "NOTICE"
    (by decide) (by decide)

/-- C8 counterexample: after `RegisterLevelName(DebugLevel, "")` on the
default table, the table still contains an entry for `DebugLevel`, mapped
to the empty string — the claim that the entry is removed is false. -/
theorem claim_register_empty_removes_cex :
    lookupTable (RegisterLevelName defaultLevelNames DebugLevel "") DebugLevel =
        some "" ∧
      lookupTable (RegisterLevelName defaultLevelNames DebugLevel "") DebugLevel ≠
        none := by
  refine ⟨by decide, by decide⟩

/-- C8 amended: after `RegisterLevelName(level, "")` the table retains an
entry for that level mapped to the empty string; `Level.String` treats the
empty name as missing, so the fallback `Level(<n>)` stringification still
applies. -/
theorem claim_register_empty_retains_entry (t : LevelTable) (l : Level) :
    lookupTable (RegisterLevelName t l "") l = some "" ∧
    levelString (RegisterLevelName t l "") l = "Level(" ++ toString l ++ ")" := by
  have h := lookupTable_register_self t l ""
  exact ⟨h, by simp [levelString, h]⟩

/-- C9: an OutPutter built by `FilterEnable` carries an enable predicate
and a nil field-modify function; its `OutPut`, run on a non-empty field
list that passes the predicate, reaches the unguarded
`o.fieldModifyFunc(ctx, &fields[i])` call and panics (a nil-function call)
instead of forwarding — contradicting the never-crash contract. -/
theorem claim_filter_enable_nil_modify_panics :
    FilterEnable (some OutPutter.std) (fun _ _ _ => true) =
      some (OutPutter.filter (some OutPutter.std) (some fun _ _ _ => true) none) ∧
    runOutPut defaultLevelNames
        (OutPutter.filter (some OutPutter.std) (some fun _ _ _ => true) none)
        none [] InfoLevel "m" [⟨"k", GoValue.str "v"⟩] 0 = .error () :=
  ⟨rfl, rfl⟩

/-- C10: `Set(name, level)` updates the store's entry for exactly that key
and leaves every other name's stored entry unchanged; `UnSet(name)` removes
exactly that key and leaves every other entry (including the root entry,
unless it is the target) unchanged. -/
theorem claim_set_unset_frame (m : StoreMap) (k k' : LoggerName) (v : Level)
    (h : k' ≠ k) :
    lookupStore (storeSet m k v) k = some v ∧
    lookupStore (storeUnSet m k) k = none ∧
    lookupStore (storeSet m k v) k' = lookupStore m k' ∧
    lookupStore (storeUnSet m k) k' = lookupStore m k' :=
  ⟨lookupStore_storeSet_self m k v, lookupStore_storeUnSet_self m k,
   lookupStore_storeSet_other m k k' v h, lookupStore_storeUnSet_other m k k' h⟩

/-- Witness for C10: setting and unsetting `a` leaves the root entry
untouched. -/
theorem claim_set_unset_frame_witness :
    (([] : LoggerName) ≠ ['a']) ∧
    (lookupStore (storeSet [(['a'], 5), ([], 0)] ['a'] 7) ['a'] = some 7 ∧
      lookupStore (storeUnSet [(['a'], 5), ([], 0)] ['a']) ['a'] = none ∧
      lookupStore (storeSet [(['a'], 5), ([], 0)] ['a'] 7) [] =
        lookupStore [(['a'], 5), ([], 0)] [] ∧
      lookupStore (storeUnSet [(['a'], 5), ([], 0)] ['a']) [] =
        lookupStore [(['a'], 5), ([], 0)] []) :=
  ⟨by decide, claim_set_unset_frame [(['a'], 5), ([], 0)] ['a'] [] 7 (by decide)⟩
